import Mathlib

/-
Verification of the pricing, cart-keying and cart-collection logic of the
react-shopping-cart package, as a shallow embedding in Lean 4.

Sources embedded:
  - src/components/Product/Product.js : Product.calculateAdditionalCost,
    Product.generateCartProduct, handleQuantityValueChange, the render-time
    price computation and the localizationScope object with its lazy getters;
  - examples/example1/app.js : addProduct, generateProductKey.

Modelling conventions:
  - JS numbers that carry prices, costs and quantities are modelled as Rat
    (the claims involve values such as 3.5); NaN is modelled by Option where
    it can arise.
  - JS objects used as string-keyed maps are modelled as association lists
    List (String x value) in insertion order, which is how Object.entries
    iterates them; keys of a JS object are pairwise distinct.
  - The selected-index bag is modelled as a function String -> Option Int:
    absent entry (undefined property access) is none.
  - The JS expression (x | 0) performs ToInt32: undefined becomes 0, an
    integer is wrapped into [-2^31, 2^31).  This is modelled by jsIndexOrZero
    and toInt32 below.
  - JS array indexing a[i] yields undefined out of bounds; modelled by
    jsArrayGet returning Option.
-/

set_option linter.unusedVariables false

/-- A product option's plain value: a JS string or number. -/
inductive OptionValue where
  | str (s : String)
  | num (q : Rat)
deriving DecidableEq

/-- A structured option variant: shape({ additionalCost(optional),
onSelect(optional), value(required) }) from Product.js propTypes.  The
optional onSelect callback has no value-level semantics and is omitted. -/
structure OptionRecord where
  value : OptionValue
  additionalCost : Option (List (String × Rat))
deriving DecidableEq

/-- ProductPropertyOptionType: a bare scalar (string or number) or a
structured record.  In JS the two are distinguished by
typeof selectedOption === 'object'. -/
inductive ProductPropertyOption where
  | scalar (v : OptionValue)
  | record (r : OptionRecord)
deriving DecidableEq

/-- JS property read obj[key] on a string-keyed object modelled as an
association list: the value at the first matching key, or undefined (none). -/
def jsLookup (l : List (String × α)) (k : String) : Option α :=
  (l.find? (fun p => p.1 = k)).map (fun p => p.2)

/-- ECMAScript ToInt32: wrap an integer into [-2^31, 2^31). -/
def toInt32 (i : Int) : Int :=
  (i + 2 ^ 31) % 2 ^ 32 - 2 ^ 31

/-- The JS expression (selectedPropertyIndexes[propertyName] | 0):
an absent entry (undefined) becomes 0, a present integer is wrapped
by ToInt32. -/
def jsIndexOrZero : Option Int → Int
  | none => 0
  | some i => toInt32 i

/-- JS array read a[i] for an integer index: undefined (none) when the index
is negative or beyond the end. -/
def jsArrayGet (xs : List α) (i : Int) : Option α :=
  if i < 0 then none else xs.get? i.toNat

/-- The contribution of a (possibly undefined) selected option, from the
reduce body of Product.calculateAdditionalCost:
typeof selectedOption === 'object'
  && (selectedOption.additionalCost && selectedOption.additionalCost[currency])
  || 0.
A JS additionalCost entry whose value is 0 is falsy, so the || yields the
number 0 either way; the value of the whole expression is the entry when the
selected option is a structured record carrying one for the currency, and 0
otherwise. -/
def optionAdditionalCost (o : Option ProductPropertyOption) (currency : String) : Rat :=
  match o with
  | some (.record r) =>
    match r.additionalCost with
    | some costs => (jsLookup costs currency).getD 0
    | none => 0
  | _ => 0

/-- One step of the reduce in Product.calculateAdditionalCost: the amount a
single option group adds, reading the group's selected option at index
(selectedPropertyIndexes[propertyName] | 0). -/
def groupAdditionalCost (sel : String → Option Int) (currency : String)
    (group : String × List ProductPropertyOption) : Rat :=
  optionAdditionalCost (jsArrayGet group.2 (jsIndexOrZero (sel group.1))) currency

/-- Product.calculateAdditionalCost (Product.js lines 168-185):
Object.entries(properties).reduce((sum, [propertyName, propertyOptions]) =>
sum + contribution, 0). -/
def calculateAdditionalCost (properties : List (String × List ProductPropertyOption))
    (sel : String → Option Int) (currency : String) : Rat :=
  properties.foldl (fun sum group => sum + groupAdditionalCost sel currency group) 0

/-- Modelled from the spec: ProductPropertyInput.getOptionValue is not under
src/ (only its caller Product.generateCartProduct is).  Per the spec,
generateCartProduct "resolves each option group to its selected variant's
plain value (stripping the additionalCost/onSelect wrapper)": a bare scalar
is its own value, a structured record yields its value field.  An undefined
argument stays undefined. -/
def getOptionValue : Option ProductPropertyOption → Option OptionValue
  | some (.scalar v) => some v
  | some (.record r) => some r.value
  | none => none

/-- The JS object update step ({ ...obj, [k]: v }) on an insertion-ordered
association list: an existing key keeps its position and gets the new value,
a new key is appended at the end. -/
def objInsert (obj : List (String × α)) (k : String) (v : α) : List (String × α) :=
  if obj.any (fun p => p.1 = k) then
    obj.map (fun p => if p.1 = k then (k, v) else p)
  else
    obj ++ [(k, v)]

/-- The product-definition fields destructured by Product.generateCartProduct. -/
structure ProductDefinition where
  properties : List (String × List ProductPropertyOption)
  propertiesToShowInCart : List String
  prices : List (String × Rat)
  name : String
  imagePath : String
  path : String
  id : String
deriving DecidableEq

/-- ProductInfoType: the snapshot stored inside a cart line item. -/
structure ProductInfo where
  name : String
  prices : List (String × Rat)
  path : String
  imagePath : String
  propertiesToShowInCart : List String
deriving DecidableEq

/-- ProductType: a cart line item.  The resolved property values are Option
because a JS lookup of an out-of-range option yields undefined. -/
structure CartProduct where
  id : String
  quantity : Rat
  properties : List (String × Option OptionValue)
  productInfo : ProductInfo
deriving DecidableEq

/-- Product.generateCartProduct (Product.js lines 187-243): builds the line
item, resolving each option group with
ProductPropertyInput.getOptionValue(options[selectedPropertyIndexes[propName]|0])
and rebuilding the per-currency price table as
price + Product.calculateAdditionalCost(properties, selectedPropertyIndexes,
currency).  Both reduces build a JS object by { ...acc, [key]: value }. -/
def generateCartProduct (pd : ProductDefinition) (quantity : Rat)
    (sel : String → Option Int) : CartProduct :=
  { id := pd.id
    quantity := quantity
    properties :=
      pd.properties.foldl
        (fun obj group =>
          objInsert obj group.1
            (getOptionValue (jsArrayGet group.2 (jsIndexOrZero (sel group.1)))))
        []
    productInfo :=
      { name := pd.name
        prices :=
          pd.prices.foldl
            (fun acc p =>
              objInsert acc p.1
                (p.2 + calculateAdditionalCost pd.properties sel p.1))
            []
        path := pd.path
        imagePath := pd.imagePath
        propertiesToShowInCart := pd.propertiesToShowInCart } }

/-- The render-time display price of Product.js lines 344-350:
prices[currency] + calculateAdditionalCost(properties, selectedPropertyIndexes,
currency).  A currency absent from prices would make the JS sum NaN; that case
is modelled as none. -/
def renderPrice (prices : List (String × Rat))
    (properties : List (String × List ProductPropertyOption))
    (sel : String → Option Int) (currency : String) : Option Rat :=
  (jsLookup prices currency).map
    (fun p => p + calculateAdditionalCost properties sel currency)

/-- Modelled from the spec: the helper isNaturalNumber imported by Product.js
lives in src/helpers.js, which is not under src/.  Per the spec, "only a
positive integer (no fractional, no zero, no negative) is accepted". -/
def isNaturalNumber (q : Rat) : Bool :=
  q.den = 1 && 0 < q.num

/-- handleQuantityValueChange (Product.js lines 263-269): coerces the input
to a number (+value) and stores it only when isNaturalNumber holds, leaving
the previous quantity state untouched otherwise.  The argument is the result
of the numeric coercion: none models NaN (non-numeric input). -/
def handleQuantityValueChange (coerced : Option Rat) (prevQuantity : Rat) : Rat :=
  match coerced with
  | some q => if isNaturalNumber q then q else prevQuantity
  | none => prevQuantity

/-- generateProductKey (examples/example1/app.js lines 670-671):
(id, properties) => id + '/' + Object.entries(properties).join('_').
Array.prototype.join stringifies each entry [name, value] as name + ',' +
value; property values are modelled post-stringification. -/
def generateProductKey (id : String) (properties : List (String × String)) : String :=
  id ++ "/" ++ String.intercalate "_" (properties.map (fun p => p.1 ++ "," ++ p.2))

/-- addProduct (examples/example1/app.js lines 647-668): the setState updater
destructures { [key]: cartProduct = { quantity: 0 }, ...restOfProducts } and
returns { ...restOfProducts, [key]: { ...product, quantity: product.quantity
+ cartProduct.quantity } }: the entry at key (quantity 0 when absent) is
removed, and the incoming product — its quantity increased by the removed
entry's — is appended. -/
def addProduct (products : List (String × CartProduct)) (key : String)
    (product : CartProduct) : List (String × CartProduct) :=
  let existingQuantity : Rat :=
    match jsLookup products key with
    | some cartProduct => cartProduct.quantity
    | none => 0
  products.filter (fun p => p.1 ≠ key) ++
    [(key, { product with quantity := product.quantity + existingQuantity })]

/-- A JS heap of cart collections: an address is an index into the list, and
building a fresh object literal allocates at a fresh address.  Used to state
that addProduct's spread-built result is a new object and the caller's
collection is not written to. -/
def addProductAlloc (heap : List (List (String × CartProduct))) (addr : Nat)
    (key : String) (product : CartProduct) :
    List (List (String × CartProduct)) × Nat :=
  match heap.get? addr with
  | some products => (heap ++ [addProduct products key product], heap.length)
  | none => (heap, addr)

/-- A value bound to a named parameter of a localization scope, as consumed by
placeholder substitution. -/
inductive ParamValue where
  | str (s : String)
  | num (q : Rat)
deriving DecidableEq

/-- One entry of the localizationScope object literal of Product.js lines
352-363: a plain string field, a plain number field, or a JS property getter
whose body is getLocalization(arg, localizationScope) — the recursive call
into the same resolver, passing the very scope object the getter lives on.
The getter stores only the captured argument; no resolver call happens at
construction time. -/
inductive ScopeEntry where
  | strVal (s : String)
  | numVal (q : Rat)
  | getLocalizationGetter (arg : String)
deriving DecidableEq

/-- The localizationScope object built in Product.render (Product.js lines
352-363): plain fields name, quantity, price, currency, and the two lazy
getters localizedCurrency and localizedName. -/
def localizationScope (name : String) (quantity price : Rat)
    (currency : String) : List (String × ScopeEntry) :=
  [("name", .strVal name),
   ("quantity", .numVal quantity),
   ("price", .numVal price),
   ("currency", .strVal currency),
   ("localizedCurrency", .getLocalizationGetter currency),
   ("localizedName", .getLocalizationGetter name)]

/-- Reading a named parameter off a scope object: a plain field yields its
stored value, a getter runs now — it invokes the resolver gl on its captured
argument and the whole scope object itself.  An absent name is undefined. -/
def accessScopeParam (gl : String → List (String × ScopeEntry) → String)
    (scope : List (String × ScopeEntry)) (key : String) : Option ParamValue :=
  (jsLookup scope key).map
    (fun e =>
      match e with
      | .strVal s => .str s
      | .numVal q => .num q
      | .getLocalizationGetter arg => .str (gl arg scope))

/-- Whether a scope lookup hits a getter entry (a lazily computed parameter). -/
def isGetterEntry : Option ScopeEntry → Bool
  | some (.getLocalizationGetter _) => true
  | _ => false

/-- Spec-side: the claims' notion of an in-range selection for one option
group.  Either no index was selected for the group (the absent entry defaults
to index 0, meaningful when the group is nonempty) or the selected integer
index lies in [0, length of the group's option list).  The bound 2^31 keeps
the index inside the range on which the ToInt32 coercion of the source's
(... | 0) is the identity; JS option lists never reach that length. -/
def InRangeSel (sel : String → Option Int)
    (group : String × List ProductPropertyOption) : Prop :=
  (sel group.1 = none ∧ group.2 ≠ []) ∨
    ∃ i : Int, sel group.1 = some i ∧ 0 ≤ i ∧ i < (group.2.length : Int) ∧ i < 2 ^ 31

/-- Spec-side: per-group contribution as worded by the claims — the option at
selectedIndexes[group] (defaulting to 0); its additionalCost[currency] when
that option is a structured record whose additionalCost mapping contains the
currency, and 0 otherwise.  Bare scalar options never contribute. -/
def specGroupContribution (sel : String → Option Int) (currency : String)
    (group : String × List ProductPropertyOption) : Rat :=
  match group.2.get? ((sel group.1).getD 0).toNat with
  | some (.record r) =>
    match r.additionalCost with
    | some costs =>
      match jsLookup costs currency with
      | some c => c
      | none => 0
    | none => 0
  | _ => 0

/-- Spec-side: the selected variant's plain value for one option group, as
worded by claim C4 — the option at selectedIndexes[group] (defaulting to 0)
with the additionalCost/onSelect wrapper stripped. -/
def specSelectedValue (sel : String → Option Int)
    (group : String × List ProductPropertyOption) : Option OptionValue :=
  (group.2.get? ((sel group.1).getD 0).toNat).map
    (fun o =>
      match o with
      | .scalar v => v
      | .record r => r.value)

/-- Pointwise override of a selected-index bag at one group name. -/
def updateSel (sel : String → Option Int) (g : String) (i : Int) :
    String → Option Int :=
  fun k => if k = g then some i else sel k

theorem toInt32_eq_self {i : Int} (hlo : -2 ^ 31 ≤ i) (hhi : i < 2 ^ 31) :
    toInt32 i = i := by
  unfold toInt32
  rw [Int.emod_eq_of_lt (by omega) (by omega)]
  omega

theorem foldl_add_map (f : α → Rat) (l : List α) (a : Rat) :
    l.foldl (fun s x => s + f x) a = a + (l.map f).sum := by
  induction l generalizing a with
  | nil => simp
  | cons x t ih => simp [ih, add_assoc]

theorem calculateAdditionalCost_eq_sum_map
    (properties : List (String × List ProductPropertyOption))
    (sel : String → Option Int) (currency : String) :
    calculateAdditionalCost properties sel currency =
      (properties.map (groupAdditionalCost sel currency)).sum := by
  unfold calculateAdditionalCost
  rw [foldl_add_map, zero_add]

theorem sum_map_congr_mem (l : List α) (f g : α → Rat)
    (h : ∀ x ∈ l, f x = g x) :
    (l.map f).sum = (l.map g).sum := by
  induction l with
  | nil => rfl
  | cons x t ih =>
    simp only [List.map_cons, List.sum_cons]
    rw [h x (by simp), ih (fun y hy => h y (by simp [hy]))]

theorem sum_map_filter_of_zero (l : List α) (f : α → Rat) (p : α → Bool)
    (h : ∀ x ∈ l, p x = false → f x = 0) :
    (l.map f).sum = ((l.filter p).map f).sum := by
  induction l with
  | nil => rfl
  | cons x t ih =>
    by_cases hx : p x
    · simp only [List.filter_cons, hx, if_true, List.map_cons, List.sum_cons]
      rw [ih (fun y hy hyp => h y (by simp [hy]) hyp)]
    · simp only [List.filter_cons, Bool.not_eq_true] at hx ⊢
      rw [hx]
      simp only [List.map_cons, List.sum_cons, h x (by simp) hx, zero_add]
      exact ih (fun y hy hyp => h y (by simp [hy]) hyp)

theorem assoc_nodup_val_unique {l : List (String × β)}
    (hnodup : (l.map Prod.fst).Nodup) {g : String} {a b : β}
    (ha : (g, a) ∈ l) (hb : (g, b) ∈ l) : a = b := by
  induction l with
  | nil => cases ha
  | cons x t ih =>
    simp only [List.map_cons, List.nodup_cons] at hnodup
    rcases List.mem_cons.mp ha with ha1 | ha2
    · rcases List.mem_cons.mp hb with hb1 | hb2
      · rw [← ha1] at hb1
        exact ((Prod.mk.injEq _ _ _ _).mp hb1).2.symm
      · exfalso
        apply hnodup.1
        have hg : (g, b).1 ∈ t.map Prod.fst := List.mem_map_of_mem Prod.fst hb2
        rw [← ha1]
        exact hg
    · rcases List.mem_cons.mp hb with hb1 | hb2
      · exfalso
        apply hnodup.1
        have hg : (g, a).1 ∈ t.map Prod.fst := List.mem_map_of_mem Prod.fst ha2
        rw [← hb1]
        exact hg
      · exact ih hnodup.2 ha2 hb2

theorem jsArrayGet_inRange {sel : String → Option Int}
    {x : String × List ProductPropertyOption} (h : InRangeSel sel x) :
    jsArrayGet x.2 (jsIndexOrZero (sel x.1)) =
      x.2.get? ((sel x.1).getD 0).toNat := by
  rcases h with ⟨hnone, -⟩ | ⟨i, hsel, h0, hlen, h31⟩
  · rw [hnone]
    simp [jsIndexOrZero, jsArrayGet]
  · rw [hsel]
    simp only [jsIndexOrZero, Option.getD_some]
    rw [toInt32_eq_self (by omega) h31]
    simp [jsArrayGet, not_lt.mpr h0]

theorem groupAdditionalCost_eq_spec_of_inRange {sel : String → Option Int}
    (currency : String) {x : String × List ProductPropertyOption}
    (h : InRangeSel sel x) :
    groupAdditionalCost sel currency x = specGroupContribution sel currency x := by
  unfold groupAdditionalCost specGroupContribution
  rw [jsArrayGet_inRange h]
  rcases ho : x.2.get? ((sel x.1).getD 0).toNat with - | o
  · rfl
  · rcases o with v | r
    · rfl
    · rcases r with ⟨v, - | costs⟩
      · rfl
      · simp only [optionAdditionalCost]
        rcases jsLookup costs currency with - | c <;> rfl

theorem getOptionValue_eq_spec_of_inRange {sel : String → Option Int}
    {x : String × List ProductPropertyOption} (h : InRangeSel sel x) :
    getOptionValue (jsArrayGet x.2 (jsIndexOrZero (sel x.1))) =
      specSelectedValue sel x := by
  unfold specSelectedValue
  rw [jsArrayGet_inRange h]
  rcases ho : x.2.get? ((sel x.1).getD 0).toNat with - | o
  · rfl
  · rcases o with v | r <;> rfl

theorem foldl_objInsert_eq_map (l : List (String × β)) (f : String × β → γ) :
    ∀ acc : List (String × γ),
      (l.map Prod.fst).Nodup →
      (∀ x ∈ l, acc.any (fun p => p.1 = x.1) = false) →
      l.foldl (fun obj g => objInsert obj g.1 (f g)) acc =
        acc ++ l.map (fun g => (g.1, f g)) := by
  induction l with
  | nil =>
    intro acc _ _
    simp
  | cons x t ih =>
    intro acc hnodup hacc
    simp only [List.map_cons, List.nodup_cons] at hnodup
    have hx : acc.any (fun p => p.1 = x.1) = false := hacc x (by simp)
    have hstep : objInsert acc x.1 (f x) = acc ++ [(x.1, f x)] := by
      simp [objInsert, hx]
    simp only [List.foldl_cons, hstep]
    rw [ih (acc ++ [(x.1, f x)]) hnodup.2]
    · simp
    · intro y hy
      have hne : x.1 ≠ y.1 := by
        intro he
        apply hnodup.1
        have : y.1 ∈ t.map Prod.fst := List.mem_map_of_mem Prod.fst hy
        rw [he]
        exact this
      simp [List.any_append, hacc y (by simp [hy]), hne]

theorem jsLookup_cons_of_eq {x : String × α} {t : List (String × α)} {k : String}
    (h : x.1 = k) : jsLookup (x :: t) k = some x.2 := by
  have hd : decide (x.1 = k) = true := by simp [h]
  simp [jsLookup, List.find?_cons, hd]

theorem jsLookup_cons_of_ne {x : String × α} {t : List (String × α)} {k : String}
    (h : x.1 ≠ k) : jsLookup (x :: t) k = jsLookup t k := by
  have hd : decide (x.1 = k) = false := by simp [h]
  simp [jsLookup, List.find?_cons, hd]

theorem jsLookup_append (l₁ l₂ : List (String × α)) (k : String) :
    jsLookup (l₁ ++ l₂) k =
      match jsLookup l₁ k with
      | some v => some v
      | none => jsLookup l₂ k := by
  induction l₁ with
  | nil => simp [jsLookup]
  | cons x t ih =>
    by_cases hx : x.1 = k
    · rw [List.cons_append, jsLookup_cons_of_eq hx, jsLookup_cons_of_eq hx]
    · rw [List.cons_append, jsLookup_cons_of_ne hx, jsLookup_cons_of_ne hx]
      exact ih

theorem jsLookup_filter_ne (l : List (String × α)) (k : String) :
    jsLookup (l.filter (fun p => p.1 ≠ k)) k = none := by
  unfold jsLookup
  rw [List.find?_eq_none.mpr]
  · rfl
  · intro x hx
    simp only [List.mem_filter] at hx
    simpa using hx.2

theorem jsLookup_singleton (k : String) (v : α) :
    jsLookup [(k, v)] k = some v := by
  simp [jsLookup]

theorem jsArrayGet_eq_none_of_out {xs : List α} {i : Int}
    (h : i < 0 ∨ (xs.length : Int) ≤ i) : jsArrayGet xs i = none := by
  unfold jsArrayGet
  split
  · rfl
  · rename_i hge
    rcases h with hneg | hlen
    · exact absurd hneg hge
    · exact List.get?_eq_none.mpr (by omega)

/-- The example option table of examples/example1/app.js (the macbook-case
product): colour with a costed purple variant, additionalColour with a costed
yellow variant. -/
def macbookProperties : List (String × List ProductPropertyOption) :=
  [("colour",
    [.scalar (.str "red"), .scalar (.str "green"),
     .record ⟨.str "purple", some [("GBP", 10), ("EUR", 15), ("USD", 20)]⟩]),
   ("additionalColour",
    [.scalar (.str "red"), .scalar (.str "green"),
     .record ⟨.str "yellow", some [("GBP", 1), ("EUR", 2), ("USD", 7/2)]⟩])]

/-- A concrete selection: colour index 2 (purple), additionalColour untouched. -/
def exampleSel : String → Option Int :=
  fun k => if k = "colour" then some 2 else none

/-- C3: for every properties map, in-range selected-index map and currency,
calculateAdditionalCost returns the sum over option groups of the selected
option's additionalCost[currency] when that option is a structured record
whose additionalCost mapping contains the currency and 0 otherwise
(specGroupContribution states that contribution in the claim's words; bare
scalars yield 0 there); in particular the total is 0 when no group
contributes. -/
theorem c3_theorem (properties : List (String × List ProductPropertyOption))
    (sel : String → Option Int) (currency : String)
    (hin : ∀ x ∈ properties, InRangeSel sel x) :
    calculateAdditionalCost properties sel currency =
      (properties.map (specGroupContribution sel currency)).sum ∧
    ((∀ x ∈ properties, specGroupContribution sel currency x = 0) →
      calculateAdditionalCost properties sel currency = 0) := by
  have h1 : calculateAdditionalCost properties sel currency =
      (properties.map (specGroupContribution sel currency)).sum := by
    rw [calculateAdditionalCost_eq_sum_map]
    exact sum_map_congr_mem _ _ _
      (fun x hx => groupAdditionalCost_eq_spec_of_inRange currency (hin x hx))
  refine ⟨h1, fun hz => ?_⟩
  rw [h1]
  apply List.sum_eq_zero
  intro y hy
  rcases List.mem_map.mp hy with ⟨x, hx, rfl⟩
  exact hz x hx

/-- Witness for C3 at the example1 option table with colour selected at
index 2 and additionalColour left unselected. -/
theorem c3_witness :
    calculateAdditionalCost macbookProperties exampleSel "USD" =
      (macbookProperties.map (specGroupContribution exampleSel "USD")).sum :=
  (c3_theorem macbookProperties exampleSel "USD"
    (by
      intro x hx
      simp only [macbookProperties, List.mem_cons, List.not_mem_nil, or_false] at hx
      rcases hx with rfl | rfl
      · exact Or.inr ⟨2, by simp [exampleSel], by norm_num, by norm_num, by norm_num⟩
      · exact Or.inl ⟨by simp [exampleSel], by simp⟩)).1

/-- C1 (amended): an out-of-range selected index (within the 32-bit range the
| 0 coercion preserves) for one option group gives the same total as selected
index 0 for that group, provided the option at index 0 of that group
contributes no additional cost for the currency.  Without that proviso the
claim fails: an out-of-range index contributes 0, it does not fall back to
the index-0 option (see the counterexample). -/
theorem c1_theorem (properties : List (String × List ProductPropertyOption))
    (sel : String → Option Int) (currency : String) (g : String)
    (opts : List ProductPropertyOption) (i : Int)
    (hnodup : (properties.map Prod.fst).Nodup)
    (hmem : (g, opts) ∈ properties)
    (hsel : sel g = some i)
    (hlo : -2 ^ 31 ≤ i) (hhi : i < 2 ^ 31)
    (hout : i < 0 ∨ (opts.length : Int) ≤ i)
    (hzero : optionAdditionalCost (jsArrayGet opts 0) currency = 0) :
    calculateAdditionalCost properties sel currency =
      calculateAdditionalCost properties (updateSel sel g 0) currency := by
  rw [calculateAdditionalCost_eq_sum_map, calculateAdditionalCost_eq_sum_map]
  apply sum_map_congr_mem
  intro x hx
  obtain ⟨x1, x2⟩ := x
  by_cases hxg : x1 = g
  · subst hxg
    have hx2 : x2 = opts := assoc_nodup_val_unique hnodup hx hmem
    subst hx2
    show optionAdditionalCost (jsArrayGet x2 (jsIndexOrZero (sel x1))) currency =
      optionAdditionalCost (jsArrayGet x2 (jsIndexOrZero (updateSel sel x1 0 x1))) currency
    rw [hsel, show updateSel sel x1 0 x1 = some 0 from if_pos rfl]
    simp only [jsIndexOrZero]
    rw [toInt32_eq_self hlo hhi, jsArrayGet_eq_none_of_out hout,
      toInt32_eq_self (by norm_num) (by norm_num)]
    rw [hzero]
    rfl
  · show optionAdditionalCost (jsArrayGet x2 (jsIndexOrZero (sel x1))) currency =
      optionAdditionalCost (jsArrayGet x2 (jsIndexOrZero (updateSel sel g 0 x1))) currency
    rw [show updateSel sel g 0 x1 = sel x1 from if_neg hxg]

/-- Counterexample to C1 as stated: one option group whose index-0 option is
a structured record costing 5 USD.  The out-of-range selected index 1 yields
a different total (0) than selected index 0 (5): the code does not fall back
to index 0. -/
theorem c1_counterexample :
    calculateAdditionalCost
        [("colour", [.record ⟨.str "purple", some [("USD", 5)]⟩])]
        (fun _ => some 1) "USD" ≠
      calculateAdditionalCost
        [("colour", [.record ⟨.str "purple", some [("USD", 5)]⟩])]
        (fun _ => some 0) "USD" := by
  simp [calculateAdditionalCost, groupAdditionalCost, optionAdditionalCost,
    jsIndexOrZero, toInt32, jsArrayGet, jsLookup, List.find?]

/-- Witness for C1 (amended): group colour has the single costless option
"red"; selected index 5 is out of range and gives the same total as index 0. -/
theorem c1_witness :
    calculateAdditionalCost [("colour", [.scalar (.str "red")])]
        (fun _ => some 5) "USD" =
      calculateAdditionalCost [("colour", [.scalar (.str "red")])]
        (updateSel (fun _ => some 5) "colour" 0) "USD" :=
  c1_theorem _ _ _ "colour" [.scalar (.str "red")] 5
    (by simp) (by simp) rfl (by norm_num) (by norm_num)
    (Or.inr (by norm_num)) (by simp [optionAdditionalCost, jsArrayGet])

/-- C10 (amended): for a selected integer index inside the 32-bit range that
is negative or at least the group's length, the group contributes exactly 0
to calculateAdditionalCost — regardless of any additionalCost carried by the
option at index 0 — and the total equals the total over the remaining groups.
(The embedding is total by construction: the out-of-range lookup yields
undefined, modelled as none, never a failure.)  The 32-bit restriction is
forced: the source coerces the index with | 0, i.e. ToInt32, so e.g. index
2^32 wraps to 0 and does contribute (see the counterexample). -/
theorem c10_theorem (properties : List (String × List ProductPropertyOption))
    (sel : String → Option Int) (currency : String) (g : String)
    (opts : List ProductPropertyOption) (i : Int)
    (hnodup : (properties.map Prod.fst).Nodup)
    (hmem : (g, opts) ∈ properties)
    (hsel : sel g = some i)
    (hlo : -2 ^ 31 ≤ i) (hhi : i < 2 ^ 31)
    (hout : i < 0 ∨ (opts.length : Int) ≤ i) :
    groupAdditionalCost sel currency (g, opts) = 0 ∧
    calculateAdditionalCost properties sel currency =
      calculateAdditionalCost (properties.filter (fun x => x.1 ≠ g)) sel
        currency := by
  have hzero : groupAdditionalCost sel currency (g, opts) = 0 := by
    show optionAdditionalCost (jsArrayGet opts (jsIndexOrZero (sel g))) currency = 0
    rw [hsel]
    simp only [jsIndexOrZero]
    rw [toInt32_eq_self hlo hhi, jsArrayGet_eq_none_of_out hout]
    rfl
  refine ⟨hzero, ?_⟩
  rw [calculateAdditionalCost_eq_sum_map, calculateAdditionalCost_eq_sum_map]
  apply sum_map_filter_of_zero
  intro x hx hpx
  have hxg : x.1 = g := by simpa using hpx
  obtain ⟨x1, x2⟩ := x
  dsimp only at hxg
  subst hxg
  have hx2 : x2 = opts := assoc_nodup_val_unique hnodup hx hmem
  subst hx2
  exact hzero

/-- Counterexample to C10 as stated: the integer index 2^32 is at least the
group length 1, yet the group contributes 5, not 0 — the | 0 coercion wraps
2^32 to 0, selecting the costed index-0 option. -/
theorem c10_counterexample :
    calculateAdditionalCost
        [("colour", [.record ⟨.str "purple", some [("USD", 5)]⟩])]
        (fun _ => some (2 ^ 32)) "USD" ≠ 0 := by
  simp [calculateAdditionalCost, groupAdditionalCost, optionAdditionalCost,
    jsIndexOrZero, toInt32, jsArrayGet, jsLookup, List.find?]

/-- Witness for C10 (amended) at a group whose index-0 option does carry a
cost: the negative selected index -2 still contributes 0. -/
theorem c10_witness :
    groupAdditionalCost (fun _ => some (-2)) "USD"
        ("colour", [.record ⟨.str "purple", some [("USD", 5)]⟩]) = 0 ∧
    calculateAdditionalCost
        [("colour", [.record ⟨.str "purple", some [("USD", 5)]⟩])]
        (fun _ => some (-2)) "USD" =
      calculateAdditionalCost
        ([("colour", [.record ⟨.str "purple", some [("USD", 5)]⟩])].filter
          (fun x => x.1 ≠ "colour"))
        (fun _ => some (-2)) "USD" :=
  c10_theorem _ _ _ "colour" [.record ⟨.str "purple", some [("USD", 5)]⟩] (-2)
    (by simp) (by simp) rfl (by norm_num) (by norm_num) (Or.inl (by norm_num))

theorem map_congr_mem (l : List α) (f g : α → β) (h : ∀ x ∈ l, f x = g x) :
    l.map f = l.map g := by
  induction l with
  | nil => rfl
  | cons x t ih =>
    simp only [List.map_cons]
    rw [h x (by simp), ih (fun y hy => h y (by simp [hy]))]

/-- The example1 product definition (examples/example1/app.js state). -/
def macbookDefinition : ProductDefinition :=
  { properties := macbookProperties
    propertiesToShowInCart := ["colour", "additionalColour"]
    prices := [("GBP", 50), ("EUR", 60), ("USD", 70)]
    name := "macbookCase"
    imagePath := "1-483x321.jpeg"
    path := "/shop/macbook-case/"
    id := "macbook-case" }

/-- C4: for an in-range selection, generateCartProduct resolves each option
group to the selected variant's plain value (specSelectedValue states this in
the claim's words) and rebuilds the price table as base price plus
calculateAdditionalCost at each currency present in the base prices. -/
theorem c4_theorem (pd : ProductDefinition) (quantity : Rat)
    (sel : String → Option Int)
    (hprops : (pd.properties.map Prod.fst).Nodup)
    (hprices : (pd.prices.map Prod.fst).Nodup)
    (hin : ∀ x ∈ pd.properties, InRangeSel sel x) :
    (generateCartProduct pd quantity sel).properties =
      pd.properties.map (fun g => (g.1, specSelectedValue sel g)) ∧
    (generateCartProduct pd quantity sel).productInfo.prices =
      pd.prices.map
        (fun p => (p.1, p.2 + calculateAdditionalCost pd.properties sel p.1)) := by
  constructor
  · show pd.properties.foldl
        (fun obj group =>
          objInsert obj group.1
            (getOptionValue (jsArrayGet group.2 (jsIndexOrZero (sel group.1)))))
        [] = _
    rw [foldl_objInsert_eq_map pd.properties
      (fun g => getOptionValue (jsArrayGet g.2 (jsIndexOrZero (sel g.1))))
      [] hprops (by simp)]
    rw [List.nil_append]
    apply map_congr_mem
    intro x hx
    rw [getOptionValue_eq_spec_of_inRange (hin x hx)]
  · show pd.prices.foldl
        (fun acc p =>
          objInsert acc p.1 (p.2 + calculateAdditionalCost pd.properties sel p.1))
        [] = _
    rw [foldl_objInsert_eq_map pd.prices
      (fun p => p.2 + calculateAdditionalCost pd.properties sel p.1)
      [] hprices (by simp)]
    rw [List.nil_append]

/-- Witness for C4 at the example1 product with quantity 1, colour selected
at index 2 and additionalColour left unselected. -/
theorem c4_witness :
    (generateCartProduct macbookDefinition 1 exampleSel).properties =
      macbookDefinition.properties.map
        (fun g => (g.1, specSelectedValue exampleSel g)) ∧
    (generateCartProduct macbookDefinition 1 exampleSel).productInfo.prices =
      macbookDefinition.prices.map
        (fun p =>
          (p.1,
            p.2 +
              calculateAdditionalCost macbookDefinition.properties exampleSel
                p.1)) :=
  c4_theorem macbookDefinition 1 exampleSel
    (by simp [macbookDefinition, macbookProperties])
    (by simp [macbookDefinition])
    (by
      intro x hx
      simp only [macbookDefinition, macbookProperties, List.mem_cons,
        List.not_mem_nil, or_false] at hx
      rcases hx with rfl | rfl
      · exact Or.inr ⟨2, by simp [exampleSel], by norm_num, by norm_num, by norm_num⟩
      · exact Or.inl ⟨by simp [exampleSel], by simp⟩)

/-- C7: the displayed price is the base price for the currency plus
calculateAdditionalCost, with no rounding: exact rational arithmetic. -/
theorem c7_theorem (prices : List (String × Rat))
    (properties : List (String × List ProductPropertyOption))
    (sel : String → Option Int) (currency : String) (base : Rat)
    (h : jsLookup prices currency = some base) :
    renderPrice prices properties sel currency =
      some (base + calculateAdditionalCost properties sel currency) := by
  unfold renderPrice
  rw [h]
  rfl

/-- Witness for C7 at the claim's example: base price USD 70, colour options
red and yellow (+3.5 USD), selected index 1, currency USD: display price is
73.5 = 147/2. -/
theorem c7_witness :
    renderPrice [("USD", 70)]
        [("colour",
          [.scalar (.str "red"), .record ⟨.str "yellow", some [("USD", 7/2)]⟩])]
        (fun k => if k = "colour" then some 1 else none) "USD" =
      some (147/2) := by
  rw [c7_theorem _ _ _ _ 70 (by simp [jsLookup])]
  simp [calculateAdditionalCost, groupAdditionalCost, optionAdditionalCost,
    jsIndexOrZero, toInt32, jsArrayGet, jsLookup, List.find?]
  norm_num

/-- C6: the quantity handler stores the coerced input exactly when it is a
positive integer and keeps the previous quantity for every other input
(fractional, zero, negative, or non-numeric — the latter modelled as none);
the handler is a total function, so no error is raised. -/
theorem c6_theorem (coerced : Option Rat) (prevQuantity : Rat) :
    (∀ n : Int, 0 < n → coerced = some (n : Rat) →
      handleQuantityValueChange coerced prevQuantity = (n : Rat)) ∧
    ((∀ n : Int, 0 < n → coerced ≠ some (n : Rat)) →
      handleQuantityValueChange coerced prevQuantity = prevQuantity) := by
  constructor
  · intro n hn hc
    subst hc
    have hnat : isNaturalNumber (n : Rat) = true := by
      simp [isNaturalNumber, Rat.den_intCast, Rat.num_intCast, hn]
    simp [handleQuantityValueChange, hnat]
  · intro h
    cases coerced with
    | none => rfl
    | some q =>
      by_cases hq : isNaturalNumber q
      · exfalso
        simp only [isNaturalNumber, Bool.and_eq_true, decide_eq_true_eq] at hq
        exact h q.num hq.2
          (congrArg some (Rat.coe_int_num_of_den_eq_one hq.1).symm)
      · simp [handleQuantityValueChange, hq]

/-- Witness for C6: the positive integer 3 is stored; the invalid input 0
leaves the previous quantity 5 unchanged. -/
theorem c6_witness :
    handleQuantityValueChange (some 3) 1 = 3 ∧
    handleQuantityValueChange (some 0) 5 = 5 := by
  constructor
  · have h := (c6_theorem (some 3) 1).1 3 (by norm_num) (by norm_num)
    simpa using h
  · exact (c6_theorem (some 0) 5).2
      (fun n hn hc => by
        have h0 : (0 : Rat) = (n : Rat) := Option.some.inj hc
        have : (n : Int) = 0 := by exact_mod_cast h0.symm
        omega)

/-- Counterexample to C2 as stated: the default generateProductKey of
example1 joins Object.entries in insertion order without sorting, so the same
name-value pairs in different insertion orders produce different keys
("m/a,1_b,2" versus "m/b,2_a,1"). -/
theorem c2_counterexample :
    generateProductKey "m" [("a", "1"), ("b", "2")] ≠
      generateProductKey "m" [("b", "2"), ("a", "1")] := by
  decide

/-- C2 (amended): the default generateProductKey is a function of the ordered
entry list, not of the entry set; permutation invariance only survives where
a permutation cannot reorder anything, i.e. for property maps with at most
one entry. -/
theorem c2_theorem (id : String) (ps qs : List (String × String))
    (hperm : ps.Perm qs) (hlen : ps.length ≤ 1) :
    generateProductKey id ps = generateProductKey id qs := by
  have heq : ps = qs := by
    rcases ps with - | ⟨x, - | ⟨y, t⟩⟩
    · cases qs with
      | nil => rfl
      | cons _ _ =>
        have := hperm.length_eq
        simp at this
    · cases qs with
      | nil =>
        have := hperm.length_eq
        simp at this
      | cons y u =>
        cases u with
        | nil =>
          have hx : x ∈ [y] := hperm.subset (by simp)
          simp only [List.mem_singleton] at hx
          rw [hx]
        | cons _ _ =>
          have := hperm.length_eq
          simp at this
    · simp at hlen
  rw [heq]

/-- Witness for C2 (amended) at a singleton property map. -/
theorem c2_witness :
    generateProductKey "m" [("a", "1")] = generateProductKey "m" [("a", "1")] :=
  c2_theorem "m" [("a", "1")] [("a", "1")] (List.Perm.refl _) (by norm_num)

/-- A sample cart line item used to instantiate the collection claims. -/
def sampleCartProduct (q : Rat) : CartProduct :=
  { id := "macbook-case"
    quantity := q
    properties := [("colour", some (.str "red"))]
    productInfo :=
      { name := "macbookCase"
        prices := [("USD", 70)]
        path := "/shop/macbook-case/"
        imagePath := "1-483x321.jpeg"
        propertiesToShowInCart := ["colour"] } }

/-- C5: addProduct leaves at the key the incoming item with its quantity
increased by the existing entry's quantity (0 when the key is absent, so the
new entry then equals the incoming item); in particular adding quantity 2
then quantity 3 at the same key yields quantity 5. -/
theorem c5_theorem (products : List (String × CartProduct)) (key : String)
    (product : CartProduct) :
    jsLookup (addProduct products key product) key =
      some
        (match jsLookup products key with
         | some existing =>
           { product with quantity := product.quantity + existing.quantity }
         | none => product) ∧
    (jsLookup
        (addProduct (addProduct [] "m" (sampleCartProduct 2)) "m"
          (sampleCartProduct 3))
        "m").map CartProduct.quantity = some 5 := by
  constructor
  · show jsLookup
        (products.filter (fun p => p.1 ≠ key) ++
          [(key,
            { product with
              quantity :=
                product.quantity +
                  match jsLookup products key with
                  | some cartProduct => cartProduct.quantity
                  | none => 0 })])
        key = _
    rw [jsLookup_append, jsLookup_filter_ne]
    rw [jsLookup_cons_of_eq rfl]
    cases h : jsLookup products key with
    | some existing => rfl
    | none =>
      show some { product with quantity := product.quantity + 0 } = some product
      rw [add_zero]
  · simp [addProduct, jsLookup, List.find?, sampleCartProduct]
    norm_num

/-- C8: building the merged collection allocates a fresh object: the heap
cell holding the caller's collection (and every other pre-existing cell) is
unchanged, and the result address holds addProduct of the input. -/
theorem c8_theorem (heap : List (List (String × CartProduct))) (addr : Nat)
    (key : String) (product : CartProduct)
    (products : List (String × CartProduct))
    (haddr : heap.get? addr = some products) :
    (addProductAlloc heap addr key product).1.get? addr = some products ∧
    (∀ a, a < heap.length →
      (addProductAlloc heap addr key product).1.get? a = heap.get? a) ∧
    (addProductAlloc heap addr key product).1.get?
        (addProductAlloc heap addr key product).2 =
      some (addProduct products key product) := by
  have halloc : addProductAlloc heap addr key product =
      (heap ++ [addProduct products key product], heap.length) := by
    unfold addProductAlloc
    rw [haddr]
  have haddr_lt : addr < heap.length := by
    by_contra hge
    rw [List.get?_eq_none.mpr (by omega)] at haddr
    cases haddr
  refine ⟨?_, ?_, ?_⟩
  · rw [halloc]
    exact (List.get?_append haddr_lt).trans haddr
  · intro a ha
    rw [halloc]
    exact List.get?_append ha
  · rw [halloc]
    exact List.get?_concat_length _ _

/-- Witness for C8 on a one-cell heap. -/
theorem c8_witness :
    (addProductAlloc [[("x", sampleCartProduct 1)]] 0 "m"
          (sampleCartProduct 2)).1.get?
        0 =
      some [("x", sampleCartProduct 1)] ∧
    (addProductAlloc [[("x", sampleCartProduct 1)]] 0 "m"
          (sampleCartProduct 2)).1.get?
        (addProductAlloc [[("x", sampleCartProduct 1)]] 0 "m"
            (sampleCartProduct 2)).2 =
      some (addProduct [("x", sampleCartProduct 1)] "m" (sampleCartProduct 2)) :=
  ⟨(c8_theorem [[("x", sampleCartProduct 1)]] 0 "m" (sampleCartProduct 2)
      [("x", sampleCartProduct 1)] rfl).1,
   (c8_theorem [[("x", sampleCartProduct 1)]] 0 "m" (sampleCartProduct 2)
      [("x", sampleCartProduct 1)] rfl).2.2⟩

/-- C9: on the scope object built in render, reading localizedName runs the
resolver on the product name and the very same scope object, reading
localizedCurrency does so on the currency, and reading any non-getter
parameter is independent of the resolver — the recursive call happens only
when a lazy parameter is actually accessed (the scope itself is built
without the resolver: localizationScope takes no gl argument). -/
theorem c9_theorem (gl : String → List (String × ScopeEntry) → String)
    (name : String) (quantity price : Rat) (currency : String) :
    accessScopeParam gl (localizationScope name quantity price currency)
        "localizedName" =
      some (.str (gl name (localizationScope name quantity price currency))) ∧
    accessScopeParam gl (localizationScope name quantity price currency)
        "localizedCurrency" =
      some (.str (gl currency (localizationScope name quantity price currency))) ∧
    (∀ (gl' : String → List (String × ScopeEntry) → String) (key : String),
      isGetterEntry
          (jsLookup (localizationScope name quantity price currency) key) =
        false →
      accessScopeParam gl (localizationScope name quantity price currency)
          key =
        accessScopeParam gl' (localizationScope name quantity price currency)
          key) := by
  have h1 : jsLookup (localizationScope name quantity price currency)
      "localizedName" = some (ScopeEntry.getLocalizationGetter name) := by
    simp [localizationScope, jsLookup, List.find?]
  have h2 : jsLookup (localizationScope name quantity price currency)
      "localizedCurrency" = some (ScopeEntry.getLocalizationGetter currency) := by
    simp [localizationScope, jsLookup, List.find?]
  refine ⟨?_, ?_, ?_⟩
  · unfold accessScopeParam
    rw [h1]
    rfl
  · unfold accessScopeParam
    rw [h2]
    rfl
  · intro gl' key hkey
    unfold accessScopeParam
    cases hl : jsLookup (localizationScope name quantity price currency) key with
    | none => rfl
    | some e =>
      cases e with
      | strVal s => rfl
      | numVal q => rfl
      | getLocalizationGetter a =>
        rw [hl] at hkey
        simp [isGetterEntry] at hkey

/-- Witness for C9: reading the plain parameter price gives the same result
under two different resolvers. -/
theorem c9_witness :
    accessScopeParam (fun id _ => id)
        (localizationScope "macbookCase" 30 73 "GBP") "price" =
      accessScopeParam (fun id _ => String.append id id)
        (localizationScope "macbookCase" 30 73 "GBP") "price" :=
  (c9_theorem (fun id _ => id) "macbookCase" 30 73 "GBP").2.2
    (fun id _ => String.append id id) "price" (by decide)

